import Mathlib

/-!
Verification of `make_dataset.py` (OinkTrack raw-recording → MOT dataset
converter). This file shallowly embeds the pure logic of the script —
the Supervisely→MOT annotation conversion (`sup_to_mot`), the seqinfo
writer (`write_seqinfo`), the pre-flight validation (`sanity_check` and
the `__main__` driver), the mask application (`apply_mask`), and the
clip-ordering / clip-discovery logic of `build_1fps_video` — and proves
the specification's testable properties about them.

Filesystem reads are modelled as explicit inputs (lists of entries /
lookup functions); image pixels are `Nat` values with uint8 semantics
(`% 256`); the external `ffmpeg` invocations are abstracted to the
concatenation *plan* they are handed (segment order, clip order), which
fully determines their deterministic output.
-/

/-! ### Annotation data model (annotation.json, Supervisely format)

A document holds a list of frame records; each record has a 0-based
`index` and a list of figures; each figure has an `objectId` and a box
given by two corner points `(x1, y1), (x2, y2)` (not necessarily
min/max ordered). Coordinates are modelled as exact rationals (Python
floats). -/

structure Figure where
  objectId : Int
  x1 : ℚ
  y1 : ℚ
  x2 : ℚ
  y2 : ℚ
  deriving DecidableEq, Repr

structure FrameRec where
  index : Nat
  figures : List Figure
  deriving DecidableEq, Repr

structure AnnoDoc where
  frames : List FrameRec
  deriving DecidableEq, Repr

/-- Python 3 `round` (round to nearest, ties to even) on an exact
rational, as applied by `int(round(x))` in `sup_to_mot`. With
`f = ⌊q⌋` (here `q.num.fdiv q.den`, floor division) and fractional part
`m / d = q - f`: round down when the fraction is below 1/2
(`2*m < d`), up when above (`d < 2*m`), and to the even neighbour on an
exact tie. -/
def pyRound (q : ℚ) : ℤ :=
  let d : ℤ := (q.den : ℤ)
  let f : ℤ := q.num.fdiv d
  let m : ℤ := q.num - f * d
  if 2 * m < d then f
  else if d < 2 * m then f + 1
  else if f % 2 = 0 then f else f + 1

/-- `make_dataset.py` line 142: `sorted({fig["objectId"] for fr in
data["frames"] for fig in fr["figures"]})` — the distinct object ids of
the whole document, in ascending order. -/
def object_ids (d : AnnoDoc) : List Int :=
  List.insertionSort (· ≤ ·) (d.frames.flatMap (fun fr => fr.figures.map (·.objectId))).dedup

/-- Line 143: `id_map = {oid: i + 1 for i, oid in enumerate(object_ids)}` —
each original id maps to its position in the sorted distinct-id list,
plus one. -/
def id_map (d : AnnoDoc) (oid : Int) : Nat :=
  (object_ids d).indexOf oid + 1

/-- One emitted MOT ground-truth row
`frame,id,x,y,w,h,1,1,1` (lines 152–155). -/
structure MotRow where
  frame : Nat
  id : Nat
  x : ℤ
  y : ℤ
  w : ℤ
  h : ℤ
  conf : Nat
  cls : Nat
  vis : Nat
  deriving DecidableEq, Repr

/-- Lines 149–155, body of the inner loop: unpack the two corner points,
take per-axis minima as the top-left corner and absolute differences as
width/height, round each to an integer, and emit the row with trailing
`1,1,1`. -/
def rowOfFig (idm : Int → Nat) (fidx : Nat) (fig : Figure) : MotRow :=
  { frame := fidx
    id := idm fig.objectId
    x := pyRound (min fig.x1 fig.x2)
    y := pyRound (min fig.y1 fig.y2)
    w := pyRound |fig.x2 - fig.x1|
    h := pyRound |fig.y2 - fig.y1|
    conf := 1
    cls := 1
    vis := 1 }

/-- Inner loop of lines 148–155: one row per figure, in the record's
figure order. -/
def emitFigures (idm : Int → Nat) (fidx : Nat) : List Figure → List MotRow
  | [] => []
  | fig :: rest => rowOfFig idm fidx fig :: emitFigures idm fidx rest

/-- Outer loop of lines 146–155: frame records in document order; the
frame field is the record's 0-based `index` plus 1 (line 147). -/
def emitFrames (idm : Int → Nat) : List FrameRec → List MotRow
  | [] => []
  | fr :: rest => emitFigures idm (fr.index + 1) fr.figures ++ emitFrames idm rest

/-- `sup_to_mot` (lines 137–155): build the identity map over the whole
document, then emit the rows. The output file's lines are modelled as
the list of rows, in emission order. -/
def sup_to_mot (d : AnnoDoc) : List MotRow :=
  emitFrames (id_map d) d.frames

/-! ### Images and the sequence metadata writer

A frame image is a pixel grid: rows of uint8 channel values (the mask
multiplies every colour channel by the same 0/1 factor, so channels are
modelled pointwise). `shapeH`/`shapeW` model `ndarray.shape[:2]`. -/

structure Image where
  px : List (List Nat)
  deriving DecidableEq, Repr

def Image.shapeH (i : Image) : Nat := i.px.length

def Image.shapeW (i : Image) : Nat := (i.px.headD []).length

/-- The seqinfo.ini contents (lines 165–174), field per field. -/
structure SeqInfo where
  name : String
  imDir : String
  frameRate : Nat
  seqLength : Nat
  imWidth : Nat
  imHeight : Nat
  imExt : String
  deriving DecidableEq, Repr

/-- `write_seqinfo` (lines 158–174). The sorted glob of `img1/*.jpg` is
the input list `imgs` (already in sorted filename order); an empty list
raises `RuntimeError` (modelled as `.error`); otherwise height/width are
read from the first frame and `seqLength` is the number of frames
found. -/
def write_seqinfo (seqName : String) (imgs : List Image) : Except String SeqInfo :=
  match imgs with
  | [] => .error ("No frames found in " ++ seqName ++ "/img1")
  | first :: _ =>
      .ok { name := seqName
            imDir := "img1"
            frameRate := 1
            seqLength := imgs.length
            imWidth := first.shapeW
            imHeight := first.shapeH
            imExt := ".jpg" }

/-! ### Pre-flight validation and the main driver

The on-disk state a sequence's checks observe is abstracted to four
booleans; `rawHasTs` is `any(raw_dir.rglob("*.ts"))`, a *recursive*
search. -/

def SPLIT_train : List String :=
  ["C1D-1", "C1D-3", "C1N-1", "C1N-3", "C2D-2", "C2N-2", "C2ND-1"]

def SPLIT_val : List String :=
  ["C1ND-1", "C2N-3"]

def SPLIT_test : List String :=
  ["C2D-1", "C1DN-1", "C1D-2", "C1N-2", "C2N-1", "C2N-4", "C2DN-1"]

/-- `[*SPLIT["train"], *SPLIT["val"], *SPLIT["test"]]` (line 183). -/
def allSeqs : List String := SPLIT_train ++ SPLIT_val ++ SPLIT_test

structure SeqFS where
  dirFound : Bool
  rawFound : Bool
  rawHasTs : Bool
  annoFound : Bool
  deriving DecidableEq, Repr

/-- The problem messages `sanity_check` can append, tagged with the
sequence they concern (the Python strings are `f"{seq}: …"`). -/
inductive Issue where
  | dirNotFound (seq : String)
  | missingRaw (seq : String)
  | noClips (seq : String)
  | missingAnno (seq : String)
  deriving DecidableEq, Repr

def Issue.seq : Issue → String
  | .dirNotFound s => s
  | .missingRaw s => s
  | .noClips s => s
  | .missingAnno s => s

/-- Loop body of `sanity_check` (lines 184–194) for one sequence: a
missing directory appends one issue and `continue`s; otherwise the
raw-videos check (`if … elif …`) and the annotation.json check each may
append one issue. -/
def checkSeq (seq : String) (c : SeqFS) : List Issue :=
  if !c.dirFound then [.dirNotFound seq]
  else
    (if !c.rawFound then [.missingRaw seq]
     else if !c.rawHasTs then [.noClips seq]
     else [])
    ++ (if !c.annoFound then [.missingAnno seq] else [])

/-- `sanity_check` (lines 180–195): collect the issues of every
configured sequence, in split order, into one list. -/
def sanity_check (fs : String → SeqFS) : List Issue :=
  allSeqs.flatMap (fun s => checkSeq s (fs s))

/-- The (split, sequence) pairs a clean run processes, in iteration
order (lines 276–279). -/
def processedAll : List (String × String) :=
  SPLIT_train.map (fun s => ("train", s))
    ++ SPLIT_val.map (fun s => ("val", s))
    ++ SPLIT_test.map (fun s => ("test", s))

/-- The `__main__` driver's validation-and-dispatch (lines 267–279):
if `sanity_check` reports any problem the run exits with the full list
before processing anything; otherwise every (split, sequence) pair is
processed in order. The processed pairs are the `.ok` payload. -/
def mainRun (fs : String → SeqFS) : Except (List Issue) (List (String × String)) :=
  let problems := sanity_check fs
  if problems.isEmpty then .ok processedAll
  else .error problems

/-- A sequence passes every check of the `sanity_check` loop body. -/
def SeqFS.clean (c : SeqFS) : Bool :=
  c.dirFound && c.rawFound && c.rawHasTs && c.annoFound

/-! ### Mask application (`apply_mask`, lines 121–134)

`cv2.imread` results are `Option Image` (`none` for a missing mask file
or an unreadable frame). OpenCV's Python `resize` has the signature
`resize(src, dsize[, dst[, fx[, fy[, interpolation]]]])`, so the
*third positional* argument is the output buffer `dst`, and
`interpolation` defaults to `INTER_LINEAR`; the invocation record below
captures how line 133's positional call binds its arguments. -/

def cv2_INTER_LINEAR : Nat := 1

def cv2_INTER_NEAREST : Nat := 0

structure ResizeInvocation where
  dsize : Nat × Nat
  dst : Option Nat
  interpolation : Nat
  deriving DecidableEq, Repr

/-- A call `cv2.resize(src, dsize, a3)` with three positional
arguments: `a3` binds the `dst` parameter and `interpolation` keeps its
default `cv2.INTER_LINEAR`. -/
def resizePositional3 (dsize : Nat × Nat) (a3 : Nat) : ResizeInvocation :=
  { dsize := dsize, dst := some a3, interpolation := cv2_INTER_LINEAR }

/-- Lines 131–133: the mask is re-used as-is when its shape equals the
frame's `shape[:2]`, and otherwise resized by
`cv2.resize(mask, (img.shape[1], img.shape[0]), cv2.INTER_NEAREST)` —
a three-positional-argument call. Returns the resize invocation issued,
if any. -/
def maskResizeDecision (imgShape maskShape : Nat × Nat) : Option ResizeInvocation :=
  if imgShape ≠ maskShape then
    some (resizePositional3 (imgShape.2, imgShape.1) cv2_INTER_NEAREST)
  else
    none

/-- Line 126: `(mask > 0).astype(np.uint8)` — binarize to {0,1} by an
any-positive test, elementwise. -/
def binarize (m : Image) : Image :=
  ⟨m.px.map (fun row => row.map (fun v => if 0 < v then 1 else 0))⟩

/-- One uint8 pixel-channel value multiplied by a mask value
(`img * m[..., None]`, elementwise, with uint8 wrap-around). -/
def mulPix (p m : Nat) : Nat := (p * m) % 256

/-- Line 134's elementwise product for a whole frame whose shape equals
the mask's: every channel value is multiplied by the per-pixel mask
value. -/
def applyMaskImg (m : Image) (img : Image) : Image :=
  ⟨List.zipWith (fun mrow irow => List.zipWith (fun mv pv => mulPix pv mv) mrow irow)
    m.px img.px⟩

/-- `apply_mask` (lines 121–134), over the directory's frame files in
sorted name order. `maskRead` is the `cv2.imread` of the mask path;
each directory entry carries the `cv2.imread` of that frame (`none`
when unreadable). Returns whether the missing-mask warning was printed
and the directory's contents afterwards: with no mask every file is
left untouched; an unreadable frame is skipped (left in place) and the
loop continues; a readable frame is overwritten in place with its
masked pixels. Frames whose shape differs from the mask's go through
the `maskResizeDecision` resize first; `resizeOracle` stands for the
pixels that external resize returns. -/
def apply_mask (resizeOracle : Image → Nat × Nat → Image)
    (maskRead : Option Image) (frames : List (Option Image)) :
    Bool × List (Option Image) :=
  match maskRead with
  | none => (true, frames)
  | some mask0 =>
      let mask := binarize mask0
      (false,
        frames.map (fun f =>
          match f with
          | none => none
          | some img =>
              let m :=
                if (img.shapeH, img.shapeW) ≠ (mask.shapeH, mask.shapeW) then
                  resizeOracle mask (img.shapeW, img.shapeH)
                else mask
              some (applyMaskImg m img)))

/-! ### Video assembly (`build_1fps_video`, lines 201–230)

The filesystem enumeration a run observes: the discovery order of
`raw_dir.iterdir()` sub-directories and, per segment, the discovery
order of its `glob("*.ts")` clips (`none` keys the root directory
itself, used when no sub-directory exists). The assembled video is a
deterministic function of the *plan*: which segments are concatenated
in which order, each with which clips in which order. -/

structure RawEnum where
  subdirs : List String
  clips : Option String → List String

def sortStr (l : List String) : List String := List.insertionSort (· ≤ ·) l

/-- `build_1fps_video`'s concatenation plan: `segment_dirs = [d for d in
raw_dir.iterdir() if d.is_dir()] or [raw_dir]` (line 204), segments
visited in sorted order (line 207), clips of each in sorted order
(line 209); a segment with no clips is skipped (lines 213–214); `none`
is returned when no segment yields output (lines 223–224), else the
ordered plan whose single or merged concatenation is the result. -/
def build_plan (e : RawEnum) : Option (List (Option String × List String)) :=
  let segKeys : List (Option String) :=
    if e.subdirs.isEmpty then [none] else (sortStr e.subdirs).map some
  let plan := segKeys.filterMap (fun k =>
    let cs := sortStr (e.clips k)
    if cs.isEmpty then none else some (k, cs))
  if plan.isEmpty then none else some plan

/-! ### Clip discovery depth (`sanity_check` line 191 vs `build_1fps_video`)

A concrete file-tree model of `raw_videos/`, to compare the recursive
`rglob("*.ts")` of the pre-flight check with the depth-limited
`glob("*.ts")` discovery of the assembler. -/

mutual
inductive FNode where
  | file (name : String)
  | dir (name : String) (children : FForest)
inductive FForest where
  | nil
  | cons (hd : FNode) (tl : FForest)
end

def FNode.name : FNode → String
  | .file n => n
  | .dir n _ => n

def FNode.isDir : FNode → Bool
  | .file _ => false
  | .dir _ _ => true

/-- The sibling nodes of a directory, as a plain list. -/
def FForest.toList : FForest → List FNode
  | .nil => []
  | .cons c cs => c :: cs.toList

/-- Whether an entry name matches the glob pattern `*.ts`. -/
def isTs (n : String) : Bool := List.isSuffixOf ".ts".data n.data

mutual
/-- All entries matching `rglob("*.ts")` under a node, at any depth. -/
def rglobTs : FNode → List String
  | .file n => if isTs n then [n] else []
  | .dir n cs => (if isTs n then [n] else []) ++ rglobTsF cs
/-- `rglobTs` over a forest of sibling nodes. -/
def rglobTsF : FForest → List String
  | .nil => []
  | .cons c cs => rglobTs c ++ rglobTsF cs
end

/-- Line 191: `any(raw_dir.rglob("*.ts"))`, over the children of
`raw_videos/` — a *recursive* search, matching at any depth. -/
def sanityHasTs (rawChildren : FForest) : Bool :=
  !(rglobTsF rawChildren).isEmpty

/-- `glob("*.ts")` of one directory: its direct children whose name
matches. -/
def directTs (children : List FNode) : List String :=
  children.filterMap (fun c => if isTs c.name then some c.name else none)

def FNode.childrenL : FNode → List FNode
  | .file _ => []
  | .dir _ cs => cs.toList

/-- The segments `build_1fps_video` iterates (line 204) and the clips
each contributes (line 209): the immediate sub-directories with their
direct `*.ts` entries, or, when there is no sub-directory, the root
itself (named `""` here) with its direct `*.ts` entries. -/
def buildSegments (rawChildren : FForest) : List (String × List String) :=
  let dirs := rawChildren.toList.filter (·.isDir)
  if dirs.isEmpty then [("", directTs rawChildren.toList)]
  else dirs.map (fun d => (d.name, directTs d.childrenL))

/-- `build_1fps_video` returns a video (rather than `None`) exactly
when some segment contributed at least one clip (lines 213–214 and
223–224). -/
def buildHasClips (rawChildren : FForest) : Bool :=
  (buildSegments rawChildren).any (fun s => !s.2.isEmpty)

/-! ### Auxiliary predicates and concrete inputs used by the theorems -/

/-- An object id occurs somewhere in the document: the membership the
set comprehension of line 142 ranges over. -/
def occursIn (d : AnnoDoc) (oid : Int) : Prop :=
  oid ∈ d.frames.flatMap (fun fr => fr.figures.map (·.objectId))

instance (d : AnnoDoc) (oid : Int) : Decidable (occursIn d oid) := by
  unfold occursIn; infer_instance

/-- Example document: frame records at indices 0 and 2, holding single
figures with object ids 7 and 3. -/
def exFig7 : Figure := ⟨7, 0, 0, 10, 10⟩

def exFig3 : Figure := ⟨3, 5, 5, 1, 1⟩

def exFr0 : FrameRec := ⟨0, [exFig7]⟩

def exFr2 : FrameRec := ⟨2, [exFig3]⟩

def exDoc : AnnoDoc := ⟨[exFr0, exFr2]⟩

/-- A 1×2 frame image used to exercise `write_seqinfo`. -/
def imgW : Image := ⟨[[5, 6]]⟩

/-- The descriptor `write_seqinfo` emits for `[imgW]` under name
`C1D-1`. -/
def infoW : SeqInfo :=
  { name := "C1D-1", imDir := "img1", frameRate := 1, seqLength := 1
    imWidth := 2, imHeight := 1, imExt := ".jpg" }

/-- A filesystem state with two faulty sequences, used to exercise the
pre-flight validation. -/
def fsW : String → SeqFS := fun s =>
  if s = "C1D-1" then ⟨false, false, false, false⟩
  else if s = "C2N-3" then ⟨true, true, false, true⟩
  else ⟨true, true, true, true⟩

/-- Two enumerations of the same raw directory (one segment pair, one
clip pair) in opposite discovery orders. -/
def enumA : RawEnum :=
  ⟨["seg2", "seg1"], fun k => if k = some "seg1" then ["b.ts", "a.ts"] else []⟩

def enumB : RawEnum :=
  ⟨["seg1", "seg2"], fun k => if k = some "seg1" then ["a.ts", "b.ts"] else []⟩

/-- A raw directory whose only clip sits two levels deep:
`raw_videos/a/b/x.ts`. -/
def deepClipTree : FForest :=
  .cons (.dir "a" (.cons (.dir "b" (.cons (.file "x.ts") .nil)) .nil)) .nil

/-- A raw directory with one clip directly inside it. -/
def shallowClipTree : FForest :=
  .cons (.file "c.ts") .nil

/-! ## Theorems -/

/-! ### Helper lemmas -/

theorem pyRound_nonneg {q : ℚ} (hq : 0 ≤ q) : 0 ≤ pyRound q := by
  have hf : 0 ≤ q.num.fdiv (q.den : ℤ) :=
    Int.fdiv_nonneg (Rat.num_nonneg.mpr hq) (Int.natCast_nonneg q.den)
  simp only [pyRound]
  split_ifs <;> omega

theorem pyRound_intCast (n : ℤ) : pyRound ((n : ℚ)) = n := by
  simp only [pyRound, Rat.num_intCast, Rat.den_intCast, Nat.cast_one, Int.fdiv_one,
    mul_one, sub_self, mul_zero]
  norm_num

theorem pyRound_eq_of_eq_intCast {q : ℚ} {n : ℤ} (h : q = (n : ℚ)) : pyRound q = n :=
  h ▸ pyRound_intCast n

/-! ### C2: box normalization -/

/-- C2: for every figure with corner points `(x1,y1)` and `(x2,y2)` in
any order, the emitted row has top-left x = min(x1,x2), top-left
y = min(y1,y2), width = |x2-x1|, height = |y2-y1| (each rounded to an
integer), width and height are non-negative, the row is unchanged when
the two corners are swapped, and corners (50,80),(10,20) yield
x=10, y=20, w=40, h=60. -/
theorem rowOfFig_box (idm : Int → Nat) (fidx : Nat) (fig : Figure) :
    ((rowOfFig idm fidx fig).x = pyRound (min fig.x1 fig.x2) ∧
     (rowOfFig idm fidx fig).y = pyRound (min fig.y1 fig.y2) ∧
     (rowOfFig idm fidx fig).w = pyRound |fig.x2 - fig.x1| ∧
     (rowOfFig idm fidx fig).h = pyRound |fig.y2 - fig.y1|) ∧
    (0 ≤ (rowOfFig idm fidx fig).w ∧ 0 ≤ (rowOfFig idm fidx fig).h) ∧
    rowOfFig idm fidx ⟨fig.objectId, fig.x2, fig.y2, fig.x1, fig.y1⟩ =
      rowOfFig idm fidx fig ∧
    ((rowOfFig idm fidx ⟨fig.objectId, 50, 80, 10, 20⟩).x = 10 ∧
     (rowOfFig idm fidx ⟨fig.objectId, 50, 80, 10, 20⟩).y = 20 ∧
     (rowOfFig idm fidx ⟨fig.objectId, 50, 80, 10, 20⟩).w = 40 ∧
     (rowOfFig idm fidx ⟨fig.objectId, 50, 80, 10, 20⟩).h = 60) := by
  refine ⟨⟨rfl, rfl, rfl, rfl⟩, ⟨pyRound_nonneg (abs_nonneg _), pyRound_nonneg (abs_nonneg _)⟩,
    ?_, ?_, ?_, ?_, ?_⟩
  · simp only [rowOfFig, min_comm fig.x2 fig.x1, min_comm fig.y2 fig.y1,
      abs_sub_comm fig.x1 fig.x2, abs_sub_comm fig.y1 fig.y2]
  · exact pyRound_eq_of_eq_intCast (by norm_num)
  · exact pyRound_eq_of_eq_intCast (by norm_num)
  · exact pyRound_eq_of_eq_intCast (by norm_num)
  · exact pyRound_eq_of_eq_intCast (by norm_num)

/-! ### C8: mask idempotence -/

theorem mulPix_mulPix (p : Nat) {m : Nat} (hm : m ≤ 1) :
    mulPix (mulPix p m) m = mulPix p m := by
  interval_cases m
  · simp [mulPix]
  · simp only [mulPix, mul_one]
    omega

theorem zipWith_mask_idem (mrow : List Nat) (irow : List Nat)
    (h : ∀ v ∈ mrow, v ≤ 1) :
    List.zipWith (fun mv pv => mulPix pv mv) mrow
      (List.zipWith (fun mv pv => mulPix pv mv) mrow irow) =
    List.zipWith (fun mv pv => mulPix pv mv) mrow irow := by
  induction mrow generalizing irow with
  | nil => rfl
  | cons m ms ih =>
    cases irow with
    | nil => rfl
    | cons p ps =>
      simp only [List.zipWith]
      exact congrArg₂ _ (mulPix_mulPix p (h m (List.mem_cons_self m ms)))
        (ih ps (fun v hv => h v (List.mem_cons_of_mem _ hv)))

theorem binarize_entries_le_one (mask : Image) :
    ∀ row ∈ (binarize mask).px, ∀ v ∈ row, v ≤ 1 := by
  intro row hrow v hv
  simp only [binarize, List.mem_map] at hrow
  obtain ⟨r, _, rfl⟩ := hrow
  simp only [List.mem_map] at hv
  obtain ⟨w, _, rfl⟩ := hv
  split <;> omega

theorem applyMaskImg_idem_of_binary (m : Image)
    (hm : ∀ row ∈ m.px, ∀ v ∈ row, v ≤ 1) (img : Image) :
    applyMaskImg m (applyMaskImg m img) = applyMaskImg m img := by
  rcases m with ⟨mpx⟩
  rcases img with ⟨ipx⟩
  simp only [applyMaskImg, Image.mk.injEq]
  induction mpx generalizing ipx with
  | nil => rfl
  | cons mr mrs ih =>
    cases ipx with
    | nil => rfl
    | cons ir irs =>
      simp only [List.zipWith]
      exact congrArg₂ _
        (zipWith_mask_idem mr ir (hm mr (List.mem_cons_self mr mrs)))
        (ih (fun row hrow => hm row (List.mem_cons_of_mem _ hrow)) irs)

/-- C8: mask application is idempotent at the pixel level — for every
pixel value `p` and binarized mask value `m ∈ {0,1}`,
`p * m * m = p * m` — and at the frame level: applying a binarized
mask twice equals applying it once. -/
theorem apply_mask_idempotent :
    (∀ p m : Nat, (m = 0 ∨ m = 1) → mulPix (mulPix p m) m = mulPix p m) ∧
    (∀ mask img : Image,
      applyMaskImg (binarize mask) (applyMaskImg (binarize mask) img) =
        applyMaskImg (binarize mask) img) := by
  constructor
  · rintro p m (rfl | rfl)
    · simp [mulPix]
    · simp only [mulPix, mul_one]
      omega
  · intro mask img
    exact applyMaskImg_idem_of_binary _ (binarize_entries_le_one mask) img

/-- Witness for C8 at pixel value 200, mask value 1. -/
theorem apply_mask_idempotent_witness :
    mulPix (mulPix 200 1) 1 = mulPix 200 1 :=
  apply_mask_idempotent.1 200 1 (Or.inr rfl)

/-! ### C4: sequence metadata writer -/

/-- C4: `write_seqinfo` fails (raises) if and only if the frame
directory holds zero frame files; on success the descriptor's
`seqLength` is the number of frame files found and width/height come
from the first frame — never an externally supplied value. -/
theorem write_seqinfo_spec (seqName : String) (imgs : List Image) :
    ((∃ msg, write_seqinfo seqName imgs = .error msg) ↔ imgs = []) ∧
    (∀ info, write_seqinfo seqName imgs = .ok info →
      info.seqLength = imgs.length ∧
      info.imWidth = (imgs.headD ⟨[]⟩).shapeW ∧
      info.imHeight = (imgs.headD ⟨[]⟩).shapeH) := by
  cases imgs with
  | nil =>
    refine ⟨⟨fun _ => rfl, fun _ => ⟨_, rfl⟩⟩, ?_⟩
    intro info h
    simp [write_seqinfo] at h
  | cons first rest =>
    constructor
    · simp [write_seqinfo]
    · intro info h
      simp only [write_seqinfo, Except.ok.injEq] at h
      subst h
      exact ⟨rfl, rfl, rfl⟩

/-- Witness for C4: the descriptor emitted for a one-frame directory
records length 1 and the first frame's 1×2 resolution. -/
theorem write_seqinfo_spec_witness :
    infoW.seqLength = [imgW].length ∧
    infoW.imWidth = ([imgW].headD ⟨[]⟩).shapeW ∧
    infoW.imHeight = ([imgW].headD ⟨[]⟩).shapeH :=
  (write_seqinfo_spec "C1D-1" [imgW]).2 infoW rfl

/-! ### C6: mask resize decision and the resize call's arguments -/

/-- C6 (code bug): the mask is resized exactly when the frame's shape
differs from the mask's; but the resize call passes
`cv2.INTER_NEAREST` as the third positional argument of `cv2.resize`,
which is the output-buffer parameter `dst`, so the `interpolation`
parameter keeps its default `INTER_LINEAR` — the resize is *not*
nearest-neighbor. -/
theorem maskResize_not_nearest :
    (∀ s : Nat × Nat, maskResizeDecision s s = none) ∧
    (∀ ishape mshape : Nat × Nat, ishape ≠ mshape →
      maskResizeDecision ishape mshape =
        some { dsize := (ishape.2, ishape.1), dst := some cv2_INTER_NEAREST,
               interpolation := cv2_INTER_LINEAR }) ∧
    cv2_INTER_LINEAR ≠ cv2_INTER_NEAREST := by
  refine ⟨fun s => by simp [maskResizeDecision], ?_, by decide⟩
  intro ishape mshape h
  simp [maskResizeDecision, resizePositional3, h]

/-- Witness for C6 at the failing input of a 2×2 mask under a 4×4
frame: the resize invocation carries `INTER_NEAREST` in `dst` and
default `INTER_LINEAR` interpolation. -/
theorem maskResize_not_nearest_witness :
    maskResizeDecision (4, 4) (2, 2) =
      some { dsize := (4, 4), dst := some cv2_INTER_NEAREST,
             interpolation := cv2_INTER_LINEAR } :=
  maskResize_not_nearest.2.1 (4, 4) (2, 2) (by decide)

/-! ### C7: missing mask and unreadable frames -/

/-- C7: a missing mask file makes `apply_mask` print a warning and
return with every frame file untouched; with a mask present, an
unreadable frame is skipped in place while every readable frame is
still masked and overwritten. -/
theorem apply_mask_missing_and_skip (oracle : Image → Nat × Nat → Image)
    (mask : Image) (frames : List (Option Image)) :
    (apply_mask oracle none frames = (true, frames)) ∧
    ((apply_mask oracle (some mask) frames).1 = false) ∧
    ((apply_mask oracle (some mask) frames).2.length = frames.length) ∧
    (∀ i : Nat, frames[i]? = some none →
      (apply_mask oracle (some mask) frames).2[i]? = some none) ∧
    (∀ i : Nat, ∀ img : Image, frames[i]? = some (some img) →
      (apply_mask oracle (some mask) frames).2[i]? =
        some (some (applyMaskImg
          (if (img.shapeH, img.shapeW) ≠
              ((binarize mask).shapeH, (binarize mask).shapeW) then
            oracle (binarize mask) (img.shapeW, img.shapeH)
          else binarize mask) img))) := by
  refine ⟨rfl, rfl, by simp [apply_mask], ?_, ?_⟩
  · intro i hi
    simp [apply_mask, List.getElem?_map, hi]
  · intro i img hi
    simp [apply_mask, List.getElem?_map, hi]

/-- Witness for C7: in a directory whose first frame is unreadable and
second readable, the unreadable frame is left in place. -/
theorem apply_mask_missing_and_skip_witness :
    (apply_mask (fun m _ => m) (some ⟨[[1]]⟩) [none, some ⟨[[3]]⟩]).2[0]? =
      some none :=
  (apply_mask_missing_and_skip (fun m _ => m) ⟨[[1]]⟩
    [none, some ⟨[[3]]⟩]).2.2.2.1 0 (by decide)

/-! ### C10: validation searches recursively, assembly does not -/

theorem rglobTsF_flatMap : ∀ f : FForest, rglobTsF f = f.toList.flatMap rglobTs
  | .nil => rfl
  | .cons c cs => by
      simp only [rglobTsF, FForest.toList, List.flatMap_cons, rglobTsF_flatMap cs]

theorem name_mem_rglobTs {c : FNode} (h : isTs c.name = true) :
    c.name ∈ rglobTs c := by
  cases c with
  | file n => simp_all [rglobTs, FNode.name]
  | dir n cs => simp_all [rglobTs, FNode.name]

theorem rglobTsF_ne_nil_of_clip {f : FForest} {c : FNode}
    (hc : c ∈ f.toList) (hts : isTs c.name = true) : rglobTsF f ≠ [] := by
  rw [rglobTsF_flatMap]
  intro hnil
  rw [List.flatMap_eq_nil_iff] at hnil
  have := name_mem_rglobTs hts
  rw [hnil c hc] at this
  exact (List.not_mem_nil _ this)

theorem directTs_clip {children : List FNode} {x : String}
    (hx : x ∈ directTs children) :
    ∃ c ∈ children, isTs c.name = true ∧ x = c.name := by
  simp only [directTs, List.mem_filterMap] at hx
  obtain ⟨c, hc, hf⟩ := hx
  by_cases h : isTs c.name = true
  · refine ⟨c, hc, h, ?_⟩
    simp only [h, if_true, Option.some.injEq] at hf
    exact hf.symm
  · simp only [Bool.not_eq_true] at h
    simp [h] at hf

theorem mem_rglobTsF_of_mem {f : FForest} {c : FNode} {x : String}
    (hc : c ∈ f.toList) (hx : x ∈ rglobTs c) : x ∈ rglobTsF f := by
  rw [rglobTsF_flatMap]
  exact List.mem_flatMap.mpr ⟨c, hc, hx⟩

theorem clip_mem_rglobTs_dir {n x : String} {cs : FForest}
    (hx : x ∈ rglobTsF cs) : x ∈ rglobTs (FNode.dir n cs) := by
  simp only [rglobTs]
  exact List.mem_append_right _ hx

theorem sanityHasTs_of_mem {raw : FForest} {x : String}
    (hx : x ∈ rglobTsF raw) : sanityHasTs raw = true := by
  cases hlist : rglobTsF raw with
  | nil => rw [hlist] at hx; exact absurd hx (List.not_mem_nil x)
  | cons y ys => simp [sanityHasTs, hlist]

/-- C10: pre-flight validation's clip check searches recursively while
the assembler only collects clips at the root or one directory deep —
so whenever assembly finds clips validation is satisfied, but a clip
nested two levels deep satisfies validation while assembly produces
the "no video" signal. -/
theorem validation_vs_assembly_depth :
    (∀ raw : FForest, buildHasClips raw = true → sanityHasTs raw = true) ∧
    (sanityHasTs deepClipTree = true ∧ buildHasClips deepClipTree = false) := by
  constructor
  · intro raw hb
    simp only [buildHasClips, List.any_eq_true] at hb
    obtain ⟨s, hs, hcl⟩ := hb
    simp only [buildSegments] at hs
    by_cases hd : (raw.toList.filter (fun c => c.isDir)).isEmpty = true
    · rw [if_pos hd] at hs
      simp only [List.mem_singleton] at hs
      subst hs
      simp only [Bool.not_eq_eq_eq_not, Bool.not_true, List.isEmpty_eq_false] at hcl
      obtain ⟨x, hx⟩ := List.exists_mem_of_ne_nil _ hcl
      obtain ⟨c, hc, hts, rfl⟩ := directTs_clip hx
      exact sanityHasTs_of_mem (mem_rglobTsF_of_mem hc (name_mem_rglobTs hts))
    · rw [if_neg hd] at hs
      simp only [List.mem_map] at hs
      obtain ⟨d, hdmem, rfl⟩ := hs
      obtain ⟨hdraw, hdir⟩ := List.mem_filter.mp hdmem
      cases d with
      | file n => simp [FNode.isDir] at hdir
      | dir n cs =>
        simp only [Bool.not_eq_eq_eq_not, Bool.not_true, List.isEmpty_eq_false] at hcl
        obtain ⟨x, hx⟩ := List.exists_mem_of_ne_nil _ hcl
        simp only [FNode.childrenL] at hx
        obtain ⟨c, hc, hts, rfl⟩ := directTs_clip hx
        exact sanityHasTs_of_mem (mem_rglobTsF_of_mem hdraw
          (clip_mem_rglobTs_dir (mem_rglobTsF_of_mem hc (name_mem_rglobTs hts))))
  · exact ⟨by decide, by decide⟩

/-- Witness for C10: a clip directly inside `raw_videos/` makes
assembly succeed, and then validation agrees. -/
theorem validation_vs_assembly_depth_witness :
    sanityHasTs shallowClipTree = true :=
  validation_vs_assembly_depth.1 shallowClipTree (by decide)

/-! ### C5: pre-flight validation -/

theorem checkSeq_eq_nil_iff (s : String) (c : SeqFS) :
    checkSeq s c = [] ↔ c.clean = true := by
  rcases c with ⟨d, r, t, a⟩
  cases d <;> cases r <;> cases t <;> cases a <;> simp [checkSeq, SeqFS.clean]

theorem checkSeq_issue_seq (s : String) (c : SeqFS) :
    ∀ i ∈ checkSeq s c, i.seq = s := by
  rcases c with ⟨d, r, t, a⟩
  cases d <;> cases r <;> cases t <;> cases a <;>
    simp [checkSeq, Issue.seq]

/-- C5: `sanity_check` runs over every configured sequence and is empty
iff every sequence passes all checks; every faulty sequence contributes
an issue naming it (no short-circuit at the first failure); the driver
aborts with the full issue list iff at least one issue exists, and only
a clean pre-flight reaches per-sequence processing. -/
theorem preflight_gate (fs : String → SeqFS) :
    (sanity_check fs = [] ↔ ∀ s ∈ allSeqs, (fs s).clean = true) ∧
    (∀ s ∈ allSeqs, (fs s).clean = false →
      ∃ i ∈ sanity_check fs, i.seq = s) ∧
    (sanity_check fs ≠ [] → mainRun fs = .error (sanity_check fs)) ∧
    (sanity_check fs = [] → mainRun fs = .ok processedAll) := by
  refine ⟨?_, ?_, ?_, ?_⟩
  · rw [sanity_check, List.flatMap_eq_nil_iff]
    exact ⟨fun h s hs => (checkSeq_eq_nil_iff s (fs s)).mp (h s hs),
      fun h s hs => (checkSeq_eq_nil_iff s (fs s)).mpr (h s hs)⟩
  · intro s hs hbad
    have hne : checkSeq s (fs s) ≠ [] := fun hnil =>
      by rw [(checkSeq_eq_nil_iff s (fs s)).mp hnil] at hbad; cases hbad
    obtain ⟨i, hi⟩ := List.exists_mem_of_ne_nil _ hne
    exact ⟨i, List.mem_flatMap.mpr ⟨s, hs, hi⟩, checkSeq_issue_seq s (fs s) i hi⟩
  · intro hne
    simp [mainRun, List.isEmpty_iff, hne]
  · intro hnil
    simp [mainRun, List.isEmpty_iff, hnil]

/-- Witness for C5: with `C1D-1`'s directory missing and `C2N-3`'s raw
clips absent, both sequences are reported and the run aborts with the
full list. -/
theorem preflight_gate_witness :
    (∃ i ∈ sanity_check fsW, i.seq = "C2N-3") ∧
    mainRun fsW = .error (sanity_check fsW) :=
  ⟨(preflight_gate fsW).2.1 "C2N-3" (by decide) (by decide),
   (preflight_gate fsW).2.2.1 (by decide)⟩

/-! ### C9: deterministic assembly order -/

theorem sortStr_eq_of_perm {l1 l2 : List String} (h : l1.Perm l2) :
    sortStr l1 = sortStr l2 :=
  List.eq_of_perm_of_sorted
    ((List.perm_insertionSort _ l1).trans (h.trans (List.perm_insertionSort _ l2).symm))
    (List.sorted_insertionSort _ l1) (List.sorted_insertionSort _ l2)

/-- C9: the concatenation plan of `build_1fps_video` — segment order,
clip order, and hence the assembled output — is the same for any two
filesystem enumerations of the same segments and clips, regardless of
discovery order, because segments and clips are sorted by name before
use. -/
theorem build_plan_deterministic (e1 e2 : RawEnum)
    (hsub : e1.subdirs.Perm e2.subdirs)
    (hclips : ∀ k, (e1.clips k).Perm (e2.clips k)) :
    build_plan e1 = build_plan e2 := by
  have hempty : e1.subdirs.isEmpty = e2.subdirs.isEmpty := by
    rcases h1 : e1.subdirs with _ | ⟨x, xs⟩
    · rw [h1] at hsub
      rw [hsub.nil_eq]
    · rcases h2 : e2.subdirs with _ | ⟨y, ys⟩
      · rw [h1, h2] at hsub
        exact absurd hsub.symm.nil_eq (by simp)
      · rfl
  have hsort : sortStr e1.subdirs = sortStr e2.subdirs := sortStr_eq_of_perm hsub
  have hfun :
      (fun k : Option String =>
        if (sortStr (e1.clips k)).isEmpty then none
        else some (k, sortStr (e1.clips k))) =
      (fun k : Option String =>
        if (sortStr (e2.clips k)).isEmpty then none
        else some (k, sortStr (e2.clips k))) :=
    funext fun k => by rw [sortStr_eq_of_perm (hclips k)]
  simp only [build_plan, hempty, hsort, hfun]

/-- Witness for C9: the two opposite-order enumerations of the same
raw directory yield the same plan. -/
theorem build_plan_deterministic_witness : build_plan enumA = build_plan enumB :=
  build_plan_deterministic enumA enumB (by decide)
    (fun k => by
      by_cases hk : k = some "seg1"
      · simp only [enumA, enumB, hk, if_pos]
        exact List.Perm.swap "a.ts" "b.ts" []
      · simp only [enumA, enumB, if_neg hk]
        exact List.Perm.refl [])

/-! ### C1: the Identity Map is a monotone bijection onto [1, N] -/

theorem id_map_def (d : AnnoDoc) (oid : Int) :
    id_map d oid = (object_ids d).indexOf oid + 1 := rfl

theorem mem_object_ids {d : AnnoDoc} {a : Int} :
    a ∈ object_ids d ↔ occursIn d a :=
  (List.perm_insertionSort _ _).mem_iff.trans List.mem_dedup

theorem object_ids_nodup (d : AnnoDoc) : (object_ids d).Nodup :=
  (List.perm_insertionSort _ _).symm.nodup (List.nodup_dedup _)

theorem object_ids_sorted (d : AnnoDoc) : (object_ids d).Sorted (· ≤ ·) :=
  List.sorted_insertionSort _ _

/-- C1: over the whole document, the Identity Map sends the distinct
original object ids bijectively onto `[1, N]`, `N` the number of
distinct ids, monotonically in the original order: every occurring id
lands in `[1, N]`, distinct occurring ids map injectively, every dense
id in `[1, N]` is hit by an occurring id, and a smaller original id
receives a smaller dense id. -/
theorem id_map_strict_bijection (d : AnnoDoc) :
    ((object_ids d).length =
      (d.frames.flatMap (fun fr => fr.figures.map (·.objectId))).dedup.length) ∧
    (∀ a, occursIn d a → 1 ≤ id_map d a ∧ id_map d a ≤ (object_ids d).length) ∧
    (∀ a b, occursIn d a → occursIn d b → id_map d a = id_map d b → a = b) ∧
    (∀ k, 1 ≤ k → k ≤ (object_ids d).length →
      ∃ a, occursIn d a ∧ id_map d a = k) ∧
    (∀ a b, occursIn d a → occursIn d b → a < b → id_map d a < id_map d b) := by
  refine ⟨(List.perm_insertionSort _ _).length_eq, ?_, ?_, ?_, ?_⟩
  · intro a ha
    have h := List.indexOf_lt_length.mpr (mem_object_ids.mpr ha)
    rw [id_map_def]
    omega
  · intro a b ha hb heq
    have hia := List.indexOf_lt_length.mpr (mem_object_ids.mpr ha)
    have hib := List.indexOf_lt_length.mpr (mem_object_ids.mpr hb)
    have hidx : (object_ids d).indexOf a = (object_ids d).indexOf b := by
      rw [id_map_def, id_map_def] at heq; omega
    calc a = (object_ids d).get ⟨(object_ids d).indexOf a, hia⟩ :=
          (List.indexOf_get hia).symm
      _ = (object_ids d).get ⟨(object_ids d).indexOf b, hib⟩ := by
          simp only [hidx]
      _ = b := List.indexOf_get hib
  · intro k hk1 hk2
    have hlt : k - 1 < (object_ids d).length := by omega
    refine ⟨(object_ids d).get ⟨k - 1, hlt⟩,
      mem_object_ids.mp (List.get_mem _ _ _), ?_⟩
    rw [id_map_def, List.get_indexOf (object_ids_nodup d) ⟨k - 1, hlt⟩]
    simp only [Fin.val_mk]
    omega
  · intro a b ha hb hab
    have hia := List.indexOf_lt_length.mpr (mem_object_ids.mpr ha)
    have hib := List.indexOf_lt_length.mpr (mem_object_ids.mpr hb)
    have hga := List.indexOf_get hia
    have hgb := List.indexOf_get hib
    rcases lt_trichotomy ((object_ids d).indexOf a) ((object_ids d).indexOf b)
      with h | h | h
    · rw [id_map_def, id_map_def]; omega
    · exfalso
      have hab' : a = b := by
        rw [← hga, ← hgb]
        simp only [h]
      rw [hab'] at hab
      exact lt_irrefl b hab
    · exfalso
      have hle : (object_ids d).get ⟨(object_ids d).indexOf b, hib⟩ ≤
          (object_ids d).get ⟨(object_ids d).indexOf a, hia⟩ :=
        (object_ids_sorted d).rel_get_of_lt (Fin.mk_lt_mk.mpr h)
      rw [hga, hgb] at hle
      exact absurd hab (not_lt.mpr hle)

/-- Witness for C1 on the example document: occurring ids 3 < 7 map to
strictly ordered dense ids. -/
theorem id_map_strict_bijection_witness :
    id_map exDoc 3 < id_map exDoc 7 :=
  (id_map_strict_bijection exDoc).2.2.2.2 3 7 (by decide) (by decide) (by decide)

/-! ### C3: one row per figure, frame index = source index + 1 -/

theorem emitFigures_eq_map (idm : Int → Nat) (fidx : Nat) (figs : List Figure) :
    emitFigures idm fidx figs = figs.map (rowOfFig idm fidx) := by
  induction figs with
  | nil => rfl
  | cons fig rest ih => simp [emitFigures, ih]

theorem emitFrames_eq_flatMap (idm : Int → Nat) (frs : List FrameRec) :
    emitFrames idm frs =
      frs.flatMap (fun fr => fr.figures.map (rowOfFig idm (fr.index + 1))) := by
  induction frs with
  | nil => rfl
  | cons fr rest ih => simp [emitFrames, emitFigures_eq_map, ih]

/-- C3: `sup_to_mot` emits, per frame record in document order and per
figure in the record's figure order, exactly one row; the row's frame
field is the record's 0-based index plus 1, and its trailing fields are
1,1,1. On the example document (frames at indices 0 and 2 with single
figures of object ids 7 and 3) the identity map is {3 ↦ 1, 7 ↦ 2} and
the table holds the frame-1 row (id 2) then the frame-3 row (id 1). -/
theorem sup_to_mot_emission (d : AnnoDoc) :
    (sup_to_mot d =
      d.frames.flatMap (fun fr => fr.figures.map (rowOfFig (id_map d) (fr.index + 1)))) ∧
    (∀ fr ∈ d.frames, ∀ fig ∈ fr.figures,
      (rowOfFig (id_map d) (fr.index + 1) fig).frame = fr.index + 1 ∧
      (rowOfFig (id_map d) (fr.index + 1) fig).conf = 1 ∧
      (rowOfFig (id_map d) (fr.index + 1) fig).cls = 1 ∧
      (rowOfFig (id_map d) (fr.index + 1) fig).vis = 1) ∧
    (id_map exDoc 3 = 1 ∧ id_map exDoc 7 = 2 ∧
      sup_to_mot exDoc =
        [⟨1, 2, 0, 0, 10, 10, 1, 1, 1⟩, ⟨3, 1, 1, 1, 4, 4, 1, 1, 1⟩]) := by
  refine ⟨emitFrames_eq_flatMap (id_map d) d.frames,
    fun fr _ fig _ => ⟨rfl, rfl, rfl, rfl⟩, by decide, by decide, ?_⟩
  have e0 : pyRound (0 : ℚ) = 0 := pyRound_eq_of_eq_intCast (by norm_num)
  have e10 : pyRound (10 : ℚ) = 10 := pyRound_eq_of_eq_intCast (by norm_num)
  have e1 : pyRound (1 : ℚ) = 1 := pyRound_eq_of_eq_intCast (by norm_num)
  have e4 : pyRound (4 : ℚ) = 4 := pyRound_eq_of_eq_intCast (by norm_num)
  have e4' : pyRound |(1 : ℚ) - 5| = 4 := pyRound_eq_of_eq_intCast (by norm_num)
  have m3 : id_map ⟨[⟨0, [⟨7, 0, 0, 10, 10⟩]⟩, ⟨2, [⟨3, 5, 5, 1, 1⟩]⟩]⟩ 3 = 1 := by decide
  have m7 : id_map ⟨[⟨0, [⟨7, 0, 0, 10, 10⟩]⟩, ⟨2, [⟨3, 5, 5, 1, 1⟩]⟩]⟩ 7 = 2 := by decide
  simp [sup_to_mot, exDoc, exFr0, exFr2, exFig7, exFig3, emitFrames, emitFigures,
    rowOfFig, e0, e10, e1, e4, e4', m3, m7]

/-- Witness for C3: the frame-0 record's single figure yields a row
with frame field 1 and trailing fields 1,1,1. -/
theorem sup_to_mot_emission_witness :
    (rowOfFig (id_map exDoc) (exFr0.index + 1) exFig7).frame = exFr0.index + 1 ∧
    (rowOfFig (id_map exDoc) (exFr0.index + 1) exFig7).conf = 1 ∧
    (rowOfFig (id_map exDoc) (exFr0.index + 1) exFig7).cls = 1 ∧
    (rowOfFig (id_map exDoc) (exFr0.index + 1) exFig7).vis = 1 :=
  (sup_to_mot_emission exDoc).2.1 exFr0 (by decide) exFig7 (by decide)
